import Mathlib

/-!
# Verification of `halotools/halo_occupation.py`

A shallow embedding, over exact rational arithmetic, of the pieces of
`halo_occupation.py` that the specification's claims are about:

* the polynomial-coefficient solver `solve_for_polynomial_coefficients`;
* the `Zheng07_HOD_Model` construction/validation state machine
  (`__init__`, `published_parameters`, `require_correct_keys`);
* the `Assembly_Biased_HOD_Model` destruction engine
  (`destruction_centrals`, `destruction_satellites`,
  `maximum_destruction_centrals`, `maximum_destruction_satellites`);
* the halo-type classifier `halo_type_calculator`.

Numpy arrays are modelled as `List ℚ` (all array operations used by the
source are elementwise, boolean-mask extraction/write-back, or reductions,
and are translated operation by operation).  Floating point numbers are
modelled as exact rationals; every source computation relevant to the
claims (comparisons, clamps, table lookups, binning arithmetic) is exact
in this model.  Python exceptions are modelled with `Except`.
-/

set_option maxHeartbeats 1600000

/-! ## Python / numpy semantic helpers -/

/-- Python 2 `round`: round half away from zero (the module is Python 2
code).  The source always applies `int(...)` to an already-integral
rounded float, so we return an `ℤ` directly. -/
def pyRound (q : ℚ) : ℤ :=
  if q < 0 then -⌊-q + 1/2⌋ else ⌊q + 1/2⌋

/-- Python slice `l[0:k]` for an `ℤ`-valued stop index `k`:
a negative stop counts from the end of the list. -/
def pySlice {β : Type} (k : ℤ) (l : List β) : List β :=
  if k < 0 then l.take (k + l.length).toNat else l.take k.toNat

/-- `numpy.ndarray.min` of a nonempty array (0 on the empty array,
which the source never queries). -/
def listMin : List ℚ → ℚ
  | [] => 0
  | x :: xs => xs.foldl min x

/-- `numpy.ndarray.max` of a nonempty array (0 on the empty array,
which the source never queries). -/
def listMax : List ℚ → ℚ
  | [] => 0
  | x :: xs => xs.foldl max x

/-- `numpy.linspace a b n`: `n` evenly spaced points from `a` to `b`
inclusive.  (For `n = 1` the rational division by `n - 1 = 0` returns 0,
so the single point is `a`, as in numpy.) -/
def linspace (a b : ℚ) (n : ℕ) : List ℚ :=
  (List.range n).map (fun (k : ℕ) => a + (k : ℚ) * (b - a) / ((n : ℚ) - 1))

/-- `numpy.digitize x edges` (with `right=False`) for a strictly
increasing edge array: the number of edges `≤ x`. -/
def digitize (edges : List ℚ) (x : ℚ) : ℤ :=
  (edges.countP (fun e => decide (e ≤ x)) : ℤ)

/-- The total preorder used by `argsort`: sort by value, breaking ties by
original position (a stable argsort; `numpy.argsort` returns one
particular permutation realizing the sorted order, and ties never affect
the properties claimed of the classifier). -/
def argsortLE (xs : List ℚ) (i j : ℕ) : Prop :=
  xs.getD i 0 < xs.getD j 0 ∨ (xs.getD i 0 = xs.getD j 0 ∧ i ≤ j)

instance (xs : List ℚ) : DecidableRel (argsortLE xs) := by
  intro i j
  unfold argsortLE
  infer_instance

/-- `numpy.argsort xs`: a permutation of `[0, …, xs.length)` listing the
positions of `xs` in ascending order of value. -/
def argsort (xs : List ℚ) : List ℕ :=
  (List.range xs.length).insertionSort (argsortLE xs)

/-! ## `solve_for_polynomial_coefficients` (module-level function)

The source builds the matrix by appending columns `abcissa**i` for
`i = 0, …, N-1`, reshaping to `N × N` (placing power `i` in row `i`) and
transposing, so entry `(j, i)` of the resulting matrix is
`abcissa[j] ** i` — a Vandermonde matrix.  It then calls
`numpy.linalg.solve`, which returns the exact solution of the linear
system for a nonsingular matrix and raises `LinAlgError` for a singular
one; that external contract is modelled by `np_linalg_solve`. -/

/-- `numpy.linalg.solve A y`: the solution of `A x = y` when `A` is
nonsingular (expressed through the adjugate so that it is computable),
and the `LinAlgError: Singular matrix` exception otherwise.  This is the
spec of the external LAPACK routine consumed by the source. -/
def np_linalg_solve {n : ℕ} (A : Matrix (Fin n) (Fin n) ℚ) (y : Fin n → ℚ) :
    Except String (Fin n → ℚ) :=
  if A.det = 0 then .error "LinAlgError: Singular matrix"
  else .ok ((A.det⁻¹ • A.adjugate).mulVec y)

/-- The `quenching_model_matrix` built by the source: entry `(j, i)` is
`abcissa[j] ** i`. -/
def quenching_model_matrix {n : ℕ} (abcissa : Fin n → ℚ) :
    Matrix (Fin n) (Fin n) ℚ :=
  Matrix.of fun j i => abcissa j ^ (i : ℕ)

/-- `solve_for_polynomial_coefficients abcissa ordinates`. -/
def solve_for_polynomial_coefficients {n : ℕ} (abcissa ordinates : Fin n → ℚ) :
    Except String (Fin n → ℚ) :=
  np_linalg_solve (quenching_model_matrix abcissa) ordinates

/-! ## `Zheng07_HOD_Model` construction state machine

Construction-time attribute state and the exceptions it can raise.
Parameter dictionaries are association lists `List (String × ℚ)`;
Python `set(d.keys()) == set(...)` is `keySetEq` below. -/

/-- Python exceptions raised during `Zheng07_HOD_Model` construction. -/
inductive PyErr : Type where
  | typeError (msg : String)
  | attributeError (msg : String)
deriving DecidableEq

deriving instance DecidableEq for Except

/-- The attributes bound on the instance by `HOD_Model.__init__` and
mutated during `Zheng07_HOD_Model` construction. -/
structure HODState : Type where
  publication : List String
  parameter_dict : Option (List (String × ℚ))
  threshold : Option ℚ
deriving DecidableEq

/-- `HOD_Model.__init__(self, parameter_dict=None, threshold=None)`,
as invoked with both arguments left at their `None` defaults (the only
way the subclasses under study call it). -/
def HOD_Model_init : HODState :=
  { publication := [], parameter_dict := none, threshold := none }

/-- The `threshold` argument of `published_parameters` / `__init__`:
`None`, a numeric scalar, or a non-numeric value (anything failing the
`isinstance(threshold, (int, float))` test). -/
inductive ThreshArg : Type where
  | noneArg
  | num (q : ℚ)
  | nonNumeric
deriving DecidableEq

/-- Table 1 of Zheng et al. 2007, column `logMmin_cen`. -/
def logMmin_cen_array : List ℚ :=
  [11.35, 11.46, 11.6, 11.75, 12.02, 12.3, 12.79, 13.38, 14.22]

/-- Table 1 of Zheng et al. 2007, column `sigma_logM`. -/
def sigma_logM_array : List ℚ :=
  [0.25, 0.24, 0.26, 0.28, 0.26, 0.21, 0.39, 0.51, 0.77]

/-- Table 1 of Zheng et al. 2007, column `logM0`. -/
def logM0_array : List ℚ :=
  [11.2, 10.59, 11.49, 11.69, 11.38, 11.84, 11.92, 13.94, 14.0]

/-- Table 1 of Zheng et al. 2007, column `logM1`. -/
def logM1_array : List ℚ :=
  [12.4, 12.68, 12.83, 13.01, 13.31, 13.58, 13.94, 13.91, 14.69]

/-- Table 1 of Zheng et al. 2007, column `alpha_sat`. -/
def alpha_sat_array : List ℚ :=
  [0.83, 0.97, 1.02, 1.06, 1.06, 1.12, 1.15, 1.04, 0.87]

/-- `np.arange(-22, -17.5, 0.5)[::-1]`: the nine luminosity thresholds,
from `-18` down to `-22` in steps of `0.5` (index `i` holds
`-22 + (8 - i)/2 = -18 - i/2`, all steps exact in binary floats). -/
def threshold_array : List ℚ :=
  (List.range 9).map (fun i => -18 - (i : ℚ) / 2)

/-- `np.where(threshold_array == t)[0]`: the list of indices of
`threshold_array` holding the value `q`. -/
def whereEq (l : List ℚ) (q : ℚ) : List ℕ :=
  (List.range l.length).filter (fun i => decide (l.getD i 0 = q))

/-- The parameter dictionary built from row `i` of the Table 1 arrays. -/
def zheng07_row (i : ℕ) : List (String × ℚ) :=
  [("logMmin_cen", logMmin_cen_array.getD i 0),
   ("sigma_logM", sigma_logM_array.getD i 0),
   ("logM0_sat", logM0_array.getD i 0),
   ("logM1_sat", logM1_array.getD i 0),
   ("alpha_sat", alpha_sat_array.getD i 0),
   ("fconc", 1)]

/-- `Zheng07_HOD_Model.published_parameters(self, threshold=None)`.
Returns the pair (a warning was emitted, result), where the result is
either the raised exception or the pair (state after the `self.threshold`
mutation, returned parameter dictionary). -/
def published_parameters (st : HODState) (threshold : ThreshArg) :
    Bool × Except PyErr (HODState × List (String × ℚ)) :=
  match threshold with
  | .nonNumeric =>
    (false, .error (.typeError "Input luminosity threshold must be a scalar"))
  | .noneArg =>
    -- warnings.warn("HOD threshold unspecified: setting to -19.5")
    let st := { st with threshold := some (-19.5) }
    (true,
      match whereEq threshold_array (-19.5) with
      | [i] => .ok (st, zheng07_row i)
      | _ => .error (.typeError
          "Input luminosity threshold does not match any of the Table 1 values of Zheng et al. 2007."))
  | .num q =>
    let st := { st with threshold := some q }
    (false,
      match whereEq threshold_array q with
      | [i] => .ok (st, zheng07_row i)
      | _ => .error (.typeError
          "Input luminosity threshold does not match any of the Table 1 values of Zheng et al. 2007."))

/-- Python `set(a) == set(b)` on key lists. -/
def keySetEq (a b : List String) : Bool :=
  a.all (fun k => b.contains k) && b.all (fun k => a.contains k)

/-- `Zheng07_HOD_Model.require_correct_keys(self)`.  Evaluates
`set(self.published_parameters(threshold = -20).keys())` first (mutating
`self.threshold` to `-20.0`), then accesses `self.parameter_dict.keys()`
— an `AttributeError` when `self.parameter_dict` is `None`. -/
def require_correct_keys (st : HODState) : Except PyErr HODState :=
  match (published_parameters st (.num (-20))).2 with
  | .error e => .error e
  | .ok (st', correct) =>
    match st'.parameter_dict with
    | none => .error (.attributeError
        "NoneType object has no attribute keys")
    | some d =>
      if keySetEq (d.map Prod.fst) (correct.map Prod.fst) then .ok st'
      else .error (.typeError
          "Set of keys of input parameter_dict do not match the set of keys required by the model")

/-- `Zheng07_HOD_Model.__init__(self, parameter_dict=None, threshold=None)`.
Note the faithful rendering of the source: when an explicit
`parameter_dict` is supplied, the `if parameter_dict is None` guard is
skipped and the supplied dictionary is never bound to
`self.parameter_dict` (which stays `None` from `HOD_Model.__init__`). -/
def Zheng07_HOD_Model_init (parameter_dict : Option (List (String × ℚ)))
    (threshold : ThreshArg) : Bool × Except PyErr HODState :=
  let st0 := HOD_Model_init
  let st1 := { st0 with publication := st0.publication ++ ["arXiv:0703457"] }
  match parameter_dict with
  | none =>
    match published_parameters st1 threshold with
    | (w, .error e) => (w, .error e)
    | (w, .ok (st2, d)) =>
      (w, require_correct_keys { st2 with parameter_dict := some d })
  | some _ => (false, require_correct_keys st1)

/-! ## `Assembly_Biased_HOD_Model` destruction engine

The abstract base class requires of each concrete subclass the functions
below; its own (concrete) methods `halo_type_fraction_*`,
`maximum_destruction_*` and `destruction_*` are defined from them.  The
baseline occupations `mean_ncen` / `mean_nsat` accept a `halo_type`
argument in the source but every baseline model ignores it
(`Zheng07_HOD_Model` is the only concrete baseline), so they are carried
here as functions of the primary property alone.  All the array
operations of these methods (`np.where` index extraction, boolean-mask
assignment, elementwise arithmetic and write-back) act independently at
each array position, so the engine is embedded elementwise, with the
array versions obtained by `List.zipWith`. -/

structure Assembly_Biased_HOD_Model (α : Type) : Type where
  baseline_mean_ncen : α → ℚ
  baseline_mean_nsat : α → ℚ
  halo_type1_fraction_centrals : α → ℚ
  halo_type1_fraction_satellites : α → ℚ
  unconstrained_central_destruction_halo_type1 : α → ℚ
  unconstrained_satellite_destruction_halo_type1 : α → ℚ

namespace Assembly_Biased_HOD_Model

variable {α : Type} (m : Assembly_Biased_HOD_Model α)

/-- `halo_type_fraction_centrals` at one array position: the type-1
fraction, flipped to its complement at positions where `halo_type == 0`.
Halo types are floats in the source; they are carried as `ℚ` here. -/
def halo_type_fraction_centrals (p : α) (t : ℚ) : ℚ :=
  if t = 0 then 1 - m.halo_type1_fraction_centrals p
  else m.halo_type1_fraction_centrals p

/-- `halo_type_fraction_satellites` at one array position. -/
def halo_type_fraction_satellites (p : α) (t : ℚ) : ℚ :=
  if t = 0 then 1 - m.halo_type1_fraction_satellites p
  else m.halo_type1_fraction_satellites p

/-- `maximum_destruction_centrals` at one array position: case 1 is
`1/F` where the type fraction `F` is positive (0 otherwise), case 2 is
`1/⟨Ncen⟩` where the baseline central mean is positive (0 otherwise),
and case 2 supersedes case 1 wherever it is smaller. -/
def maximum_destruction_centrals (p : α) (t : ℚ) : ℚ :=
  let F := m.halo_type_fraction_centrals p t
  let case1 := if F > 0 then 1 / F else 0
  let ncen := m.baseline_mean_ncen p
  let case2 := if ncen > 0 then 1 / ncen else 0
  if case2 < case1 then case2 else case1

/-- `maximum_destruction_satellites` at one array position: `1/F` where
the type fraction `F` is positive, 0 otherwise (no baseline-mean bound
for satellites). -/
def maximum_destruction_satellites (p : α) (t : ℚ) : ℚ :=
  let F := m.halo_type_fraction_satellites p t
  if F > 0 then 1 / F else 0

/-- `destruction_centrals` at one array position.  Following the source:
start from the unconstrained type-1 value, floor it at 0, cap it at
`maximum_destruction_centrals(p, 1)`, override it to exactly 1 where the
type-1 fraction equals 1; then, at positions whose input halo type is 0,
replace it by the conservation-law complement `(1 - d₁·P₁)/P₀` where
`P₀ > 0` and by 0 where `P₀ == 0`. -/
def destruction_centrals_elt (p : α) (t : ℚ) : ℚ :=
  let d0 := m.unconstrained_central_destruction_halo_type1 p
  let d1 := if d0 < 0 then 0 else d0
  let mx := m.maximum_destruction_centrals p 1
  let d2 := if d1 > mx then mx else d1
  let P1 := m.halo_type_fraction_centrals p 1
  let d3 := if P1 = 1 then 1 else d2
  if t = 0 then
    let P0 := 1 - P1
    if P0 > 0 then (1 - d3 * P1) / P0
    else if P0 = 0 then 0
    else d3
  else d3

/-- `destruction_satellites` at one array position (same two-phase
algorithm as for centrals, with the satellite type fraction,
unconstrained function, and ceiling). -/
def destruction_satellites_elt (p : α) (t : ℚ) : ℚ :=
  let d0 := m.unconstrained_satellite_destruction_halo_type1 p
  let d1 := if d0 < 0 then 0 else d0
  let mx := m.maximum_destruction_satellites p 1
  let d2 := if d1 > mx then mx else d1
  let P1 := m.halo_type_fraction_satellites p 1
  let d3 := if P1 = 1 then 1 else d2
  if t = 0 then
    let P0 := 1 - P1
    if P0 > 0 then (1 - d3 * P1) / P0
    else if P0 = 0 then 0
    else d3
  else d3

/-- `destruction_centrals(self, primary_halo_property, halo_type)`. -/
def destruction_centrals (ps : List α) (ts : List ℚ) : List ℚ :=
  List.zipWith m.destruction_centrals_elt ps ts

/-- `destruction_satellites(self, primary_halo_property, halo_type)`. -/
def destruction_satellites (ps : List α) (ts : List ℚ) : List ℚ :=
  List.zipWith m.destruction_satellites_elt ps ts

end Assembly_Biased_HOD_Model

/-! ## `halo_type_calculator`

`defaults.default_halo_type_calculator_spacing` and
`defaults.default_bin_max_epsilon` live in the repository's `defaults`
module, which is not part of the provided source; the bin spacing is in
any case an explicit argument of the method, and the epsilon enters only
through `maximum = primary.max() + epsilon`, so both are carried as
arguments here. -/

/-- `Nbins = int(round((maximum - minimum)/bin_spacing))`. -/
def numberOfBins (primary : List ℚ) (spacing eps : ℚ) : ℕ :=
  (pyRound ((listMax primary + eps - listMin primary) / spacing)).toNat

/-- `primary_halo_property_bins = np.linspace(minimum, maximum, num=Nbins)`. -/
def binEdges (primary : List ℚ) (spacing eps : ℚ) : List ℚ :=
  linspace (listMin primary) (listMax primary + eps) (numberOfBins primary spacing eps)

/-- `bin_midpoints = bins[0:-1] + np.diff(bins)/2.`. -/
def binMidpoints (primary : List ℚ) (spacing eps : ℚ) : List ℚ :=
  List.zipWith (fun a b => a + (b - a) / 2)
    (binEdges primary spacing eps) (binEdges primary spacing eps).tail

/-- `array_of_bin_indices = np.digitize(primary, bins) - 1`. -/
def binIndices (primary : List ℚ) (spacing eps : ℚ) : List ℤ :=
  primary.map (fun x => digitize (binEdges primary spacing eps) x - 1)

/-- The positions (in catalog order) of the halos falling in bin `b`:
the boolean mask `array_of_bin_indices == bin_index_i` applied to
positions.  Numpy mask extraction returns elements in increasing
position order. -/
def binMembersOf (binIdx : List ℤ) (b : ℤ) : List ℕ :=
  (List.range binIdx.length).filter (fun j => decide (binIdx.getD j 0 = b))

/-- The positions zeroed while processing bin `b`:
`bin_splitting_index = int(round(n * bin_splitting_fraction[b]))` and the
members at ranks `argsort(secondary_in_bin)[0:bin_splitting_index]`.
(`frac` is the precomputed `bin_splitting_fraction` array.) -/
def zeroedPositions (secondary : List ℚ) (binIdx : List ℤ) (frac : List ℚ)
    (b : ℤ) : List ℕ :=
  let members := binMembersOf binIdx b
  let svals := members.map (fun j => secondary.getD j 0)
  let split := pyRound ((members.length : ℚ) * frac.getD b.toNat 0)
  (pySlice split (argsort svals)).map (fun r => members.getD r 0)

/-- The loop body for bin `b`: `halo_types_i[argsort_i[0:split]] = 0`
followed by the write-back `halo_types[mask] = halo_types_i`.  Mask
extraction, in-place update at the selected ranks, and positional
write-back of the untouched remaining entries amount to setting the
zeroed positions of the full array to 0 and leaving every other entry
unchanged. -/
def processBin (secondary : List ℚ) (binIdx : List ℤ) (frac : List ℚ)
    (b : ℤ) (types : List ℚ) : List ℚ :=
  (zeroedPositions secondary binIdx frac b).foldl (fun l r => l.set r 0) types

/-- `Assembly_Biased_HOD_Model.halo_type_calculator`.  Types start at 1
(`np.ones`); the loop runs over `set(array_of_bin_indices)` — each
occurring bin index exactly once, in an order that does not affect the
result (bins are disjoint and every write stores 0). -/
def halo_type_calculator (primary secondary : List ℚ) (f : ℚ → ℚ)
    (spacing eps : ℚ) : List ℚ :=
  let mids := binMidpoints primary spacing eps
  let frac := mids.map (fun q => 1 - f q)
  let binIdx := binIndices primary spacing eps
  binIdx.dedup.foldl (fun types b => processBin secondary binIdx frac b types)
    (List.replicate primary.length 1)

/-! ## Concrete instances used by the witness theorems -/

/-- A concrete assembly-biased model with type-1 fractions `1/2`
(witness instance). -/
def wmHalf : Assembly_Biased_HOD_Model ℚ :=
  { baseline_mean_ncen := fun _ => 1/2
    baseline_mean_nsat := fun _ => 3
    halo_type1_fraction_centrals := fun _ => 1/2
    halo_type1_fraction_satellites := fun _ => 1/2
    unconstrained_central_destruction_halo_type1 := fun _ => 5
    unconstrained_satellite_destruction_halo_type1 := fun _ => -2 }

/-- A concrete assembly-biased model with central type-1 fraction 0 and
unconstrained central destruction 5 (witness instance for the ceiling
clamp scenario). -/
def wmZero : Assembly_Biased_HOD_Model ℚ :=
  { baseline_mean_ncen := fun _ => 1/2
    baseline_mean_nsat := fun _ => 3
    halo_type1_fraction_centrals := fun _ => 0
    halo_type1_fraction_satellites := fun _ => 1/2
    unconstrained_central_destruction_halo_type1 := fun _ => 5
    unconstrained_satellite_destruction_halo_type1 := fun _ => 2 }

/-- A concrete assembly-biased model with type-1 fractions identically 1
(witness instance for the boundary override). -/
def wmOne : Assembly_Biased_HOD_Model ℚ :=
  { baseline_mean_ncen := fun _ => 1/2
    baseline_mean_nsat := fun _ => 3
    halo_type1_fraction_centrals := fun _ => 1
    halo_type1_fraction_satellites := fun _ => 1
    unconstrained_central_destruction_halo_type1 := fun _ => 7
    unconstrained_satellite_destruction_halo_type1 := fun _ => -3 }

/-! # Theorems

General helper lemmas first, then one theorem per claim of the
specification (with witnesses where the theorem carries hypotheses). -/

/-! ## Helper lemmas: table lookup -/

theorem getD_eq_getElem_of_lt {β : Type} (l : List β) (i : ℕ) (d : β)
    (h : i < l.length) : l.getD i d = l[i] := by
  simp [List.getD_eq_getElem?_getD, List.getElem?_eq_getElem h]

theorem whereEq_eq_nil_of_not_mem (l : List ℚ) (q : ℚ) (hq : q ∉ l) :
    whereEq l q = [] := by
  unfold whereEq
  rw [List.filter_eq_nil_iff]
  intro i hi
  simp only [List.mem_range] at hi
  simp only [decide_eq_true_eq]
  intro h
  rw [getD_eq_getElem_of_lt l i 0 hi] at h
  exact hq (h ▸ List.getElem_mem hi)

/-- The Vandermonde matrix built by `solve_for_polynomial_coefficients`
(append the columns `abcissa**i`, reshape, transpose) is exactly
`Matrix.vandermonde`. -/
theorem quenching_model_matrix_eq_vandermonde {n : ℕ} (a : Fin n → ℚ) :
    quenching_model_matrix a = Matrix.vandermonde a := rfl

/-- C8.  Polynomial solver contract: for pairwise-distinct abcissa the
solver returns coefficients interpolating the ordinates exactly (exact
rational arithmetic); for abcissa with a duplicate entry the Vandermonde
system is singular and the singular-system error is raised instead. -/
theorem solve_for_polynomial_coefficients_contract {n : ℕ}
    (abcissa ordinates : Fin n → ℚ) :
    (Function.Injective abcissa →
      ∃ c, solve_for_polynomial_coefficients abcissa ordinates = .ok c ∧
        ∀ j, (∑ i : Fin n, c i * abcissa j ^ (i : ℕ)) = ordinates j) ∧
    (¬ Function.Injective abcissa →
      solve_for_polynomial_coefficients abcissa ordinates =
        .error "LinAlgError: Singular matrix") := by
  constructor
  · intro hinj
    have hdet : (quenching_model_matrix abcissa).det ≠ 0 := by
      rw [quenching_model_matrix_eq_vandermonde]
      exact Matrix.det_vandermonde_ne_zero_iff.mpr hinj
    refine ⟨((quenching_model_matrix abcissa).det⁻¹ •
        (quenching_model_matrix abcissa).adjugate).mulVec ordinates, ?_, ?_⟩
    · unfold solve_for_polynomial_coefficients np_linalg_solve
      rw [if_neg hdet]
    · intro j
      have key : (quenching_model_matrix abcissa).mulVec
          (((quenching_model_matrix abcissa).det⁻¹ •
            (quenching_model_matrix abcissa).adjugate).mulVec ordinates) = ordinates := by
        rw [Matrix.mulVec_mulVec]
        have hone : quenching_model_matrix abcissa *
            ((quenching_model_matrix abcissa).det⁻¹ •
              (quenching_model_matrix abcissa).adjugate) = 1 := by
          rw [Matrix.mul_smul, Matrix.mul_adjugate, smul_smul,
            inv_mul_cancel₀ hdet, one_smul]
        rw [hone, Matrix.one_mulVec]
      have expand : (quenching_model_matrix abcissa).mulVec
          (((quenching_model_matrix abcissa).det⁻¹ •
            (quenching_model_matrix abcissa).adjugate).mulVec ordinates) j =
          ∑ i : Fin n, (((quenching_model_matrix abcissa).det⁻¹ •
            (quenching_model_matrix abcissa).adjugate).mulVec ordinates) i *
              abcissa j ^ (i : ℕ) := by
        simp [Matrix.mulVec, Matrix.dotProduct, quenching_model_matrix, mul_comm]
      rw [← expand, key]
  · intro hninj
    have hdet : (quenching_model_matrix abcissa).det = 0 := by
      by_contra h
      exact hninj ((quenching_model_matrix_eq_vandermonde abcissa ▸
        Matrix.det_vandermonde_ne_zero_iff).mp h)
    unfold solve_for_polynomial_coefficients np_linalg_solve
    rw [if_pos hdet]

/-- C7.  Implicit behavior of `Zheng07_HOD_Model.__init__`: an explicitly
supplied parameter dictionary (of any content, including the exact
required key set) is never bound to `self.parameter_dict`; construction
always dies with an `AttributeError` inside `require_correct_keys` when
it accesses `None.keys()`, so no key-set validation of the supplied
dictionary ever happens. -/
theorem zheng07_explicit_parameter_dict_ignored
    (d : List (String × ℚ)) (t : ThreshArg) :
    Zheng07_HOD_Model_init (some d) t =
      (false, .error (.attributeError "NoneType object has no attribute keys")) := by
  with_unfolding_all rfl

/-- C6.  Evaluation at the failing input: constructing with an explicit
parameter dictionary whose key set is wrong does fail, but with the
`AttributeError` of C7 (the supplied dictionary is discarded before any
key-set check), not with the key-set-validation error the spec
describes. -/
theorem zheng07_wrong_keys_attribute_error :
    Zheng07_HOD_Model_init (some [("wrong_key", 1)]) .noneArg =
      (false, .error (.attributeError "NoneType object has no attribute keys")) := by
  with_unfolding_all rfl

theorem threshold_array_eq :
    threshold_array = [-18, -18.5, -19, -19.5, -20, -20.5, -21, -21.5, -22] := by
  with_unfolding_all rfl

theorem whereEq_singleton_of_mem (q : ℚ) (hq : q ∈ threshold_array) :
    ∃ i, whereEq threshold_array q = [i] := by
  rw [threshold_array_eq] at hq
  simp only [List.mem_cons, List.not_mem_nil, or_false] at hq
  rcases hq with rfl|rfl|rfl|rfl|rfl|rfl|rfl|rfl|rfl
  · exact ⟨0, by with_unfolding_all rfl⟩
  · exact ⟨1, by with_unfolding_all rfl⟩
  · exact ⟨2, by with_unfolding_all rfl⟩
  · exact ⟨3, by with_unfolding_all rfl⟩
  · exact ⟨4, by with_unfolding_all rfl⟩
  · exact ⟨5, by with_unfolding_all rfl⟩
  · exact ⟨6, by with_unfolding_all rfl⟩
  · exact ⟨7, by with_unfolding_all rfl⟩
  · exact ⟨8, by with_unfolding_all rfl⟩

/-- C9.  `published_parameters` raises exactly on a specified threshold
that is non-numeric or not among the nine published values; with the
threshold unspecified it warns, falls back to the default threshold
`-19.5`, and returns that threshold's parameter dictionary. -/
theorem published_parameters_contract (st : HODState) (t : ThreshArg) :
    ((∃ e, (published_parameters st t).2 = .error e) ↔
      (t = .nonNumeric ∨ ∃ q, t = .num q ∧ q ∉ threshold_array)) ∧
    ((published_parameters st .noneArg).1 = true ∧
      (published_parameters st .noneArg).2 =
        .ok ({ st with threshold := some (-19.5) },
          [("logMmin_cen", 11.75), ("sigma_logM", 0.28), ("logM0_sat", 11.69),
           ("logM1_sat", 13.01), ("alpha_sat", 1.06), ("fconc", 1)])) := by
  refine ⟨?_, ?_, by with_unfolding_all rfl⟩
  · cases t with
    | nonNumeric =>
      constructor
      · intro _
        exact Or.inl rfl
      · intro _
        exact ⟨.typeError "Input luminosity threshold must be a scalar", rfl⟩
    | noneArg =>
      have h : (published_parameters st .noneArg).2 =
          .ok ({ st with threshold := some (-19.5) }, zheng07_row 3) := by
        with_unfolding_all rfl
      constructor
      · rintro ⟨e, he⟩
        rw [h] at he
        cases he
      · rintro (h' | ⟨q, h', _⟩) <;> cases h'
    | num q =>
      by_cases hq : q ∈ threshold_array
      · obtain ⟨i, hi⟩ := whereEq_singleton_of_mem q hq
        have h : (published_parameters st (.num q)).2 =
            .ok ({ st with threshold := some q }, zheng07_row i) := by
          simp only [published_parameters]
          rw [hi]
        constructor
        · rintro ⟨e, he⟩
          rw [h] at he
          cases he
        · rintro (h' | ⟨q', hq', hnm⟩)
          · cases h'
          · cases hq'
            exact absurd hq hnm
      · have h : (published_parameters st (.num q)).2 = .error (.typeError
            "Input luminosity threshold does not match any of the Table 1 values of Zheng et al. 2007.") := by
          simp only [published_parameters]
          rw [whereEq_eq_nil_of_not_mem _ _ hq]
        constructor
        · intro _
          exact Or.inr ⟨q, rfl, hq⟩
        · intro _
          exact ⟨_, h⟩
  · with_unfolding_all rfl

/-- C10.  Constructing `Zheng07_HOD_Model` without an explicit parameter
dictionary, for any recognized threshold `q` (or for `None`): the
completed instance carries `threshold = -20.0` (rebound by the
`published_parameters(threshold=-20)` call inside
`require_correct_keys`), while `parameter_dict` still holds the
published parameters of the originally requested threshold. -/
theorem zheng07_threshold_overwritten (q : ℚ) (hq : q ∈ threshold_array) :
    (∃ d, (published_parameters HOD_Model_init (.num q)).2 =
        .ok ({ publication := [], parameter_dict := none, threshold := some q }, d) ∧
      Zheng07_HOD_Model_init none (.num q) =
        (false, .ok { publication := ["arXiv:0703457"], parameter_dict := some d,
                      threshold := some (-20) })) ∧
    Zheng07_HOD_Model_init none .noneArg =
      (true, .ok { publication := ["arXiv:0703457"],
                   parameter_dict := some (zheng07_row 3),
                   threshold := some (-20) }) := by
  refine ⟨?_, by with_unfolding_all rfl⟩
  rw [threshold_array_eq] at hq
  simp only [List.mem_cons, List.not_mem_nil, or_false] at hq
  rcases hq with rfl|rfl|rfl|rfl|rfl|rfl|rfl|rfl|rfl
  · exact ⟨zheng07_row 0, by with_unfolding_all rfl, by with_unfolding_all rfl⟩
  · exact ⟨zheng07_row 1, by with_unfolding_all rfl, by with_unfolding_all rfl⟩
  · exact ⟨zheng07_row 2, by with_unfolding_all rfl, by with_unfolding_all rfl⟩
  · exact ⟨zheng07_row 3, by with_unfolding_all rfl, by with_unfolding_all rfl⟩
  · exact ⟨zheng07_row 4, by with_unfolding_all rfl, by with_unfolding_all rfl⟩
  · exact ⟨zheng07_row 5, by with_unfolding_all rfl, by with_unfolding_all rfl⟩
  · exact ⟨zheng07_row 6, by with_unfolding_all rfl, by with_unfolding_all rfl⟩
  · exact ⟨zheng07_row 7, by with_unfolding_all rfl, by with_unfolding_all rfl⟩
  · exact ⟨zheng07_row 8, by with_unfolding_all rfl, by with_unfolding_all rfl⟩

/-- Witness for C10 at the concrete recognized threshold `-19`. -/
theorem zheng07_threshold_overwritten_witness :
    (-19 : ℚ) ∈ threshold_array ∧
    ((∃ d, (published_parameters HOD_Model_init (.num (-19))).2 =
        .ok ({ publication := [], parameter_dict := none, threshold := some (-19) }, d) ∧
      Zheng07_HOD_Model_init none (.num (-19)) =
        (false, .ok { publication := ["arXiv:0703457"], parameter_dict := some d,
                      threshold := some (-20) })) ∧
    Zheng07_HOD_Model_init none .noneArg =
      (true, .ok { publication := ["arXiv:0703457"],
                   parameter_dict := some (zheng07_row 3),
                   threshold := some (-20) })) :=
  ⟨by with_unfolding_all decide,
    zheng07_threshold_overwritten (-19) (by with_unfolding_all decide)⟩

/-! ## Helper lemmas: destruction engine (element level) -/

theorem frac_cen_one {α : Type} (m : Assembly_Biased_HOD_Model α) (p : α) :
    m.halo_type_fraction_centrals p 1 = m.halo_type1_fraction_centrals p := by
  unfold Assembly_Biased_HOD_Model.halo_type_fraction_centrals
  simp

theorem frac_sat_one {α : Type} (m : Assembly_Biased_HOD_Model α) (p : α) :
    m.halo_type_fraction_satellites p 1 = m.halo_type1_fraction_satellites p := by
  unfold Assembly_Biased_HOD_Model.halo_type_fraction_satellites
  simp

theorem max_cen_nonneg {α : Type} (m : Assembly_Biased_HOD_Model α) (p : α) (t : ℚ) :
    0 ≤ m.maximum_destruction_centrals p t := by
  unfold Assembly_Biased_HOD_Model.maximum_destruction_centrals
  dsimp only
  split_ifs with h1 h2 h3 <;>
    first
      | positivity
      | linarith [one_div_pos.mpr h2]
      | linarith [one_div_pos.mpr h3]

theorem max_sat_nonneg {α : Type} (m : Assembly_Biased_HOD_Model α) (p : α) (t : ℚ) :
    0 ≤ m.maximum_destruction_satellites p t := by
  unfold Assembly_Biased_HOD_Model.maximum_destruction_satellites
  dsimp only
  split_ifs with h1 <;>
    first
      | positivity
      | linarith [one_div_pos.mpr h1]

theorem max_cen_le_inv {α : Type} (m : Assembly_Biased_HOD_Model α) (p : α)
    (hf : 0 < m.halo_type1_fraction_centrals p) :
    m.maximum_destruction_centrals p 1 ≤ 1 / m.halo_type1_fraction_centrals p := by
  unfold Assembly_Biased_HOD_Model.maximum_destruction_centrals
  dsimp only
  rw [frac_cen_one, if_pos hf]
  split_ifs <;> first | linarith | linarith [one_div_pos.mpr hf]

theorem max_sat_le_inv {α : Type} (m : Assembly_Biased_HOD_Model α) (p : α)
    (hf : 0 < m.halo_type1_fraction_satellites p) :
    m.maximum_destruction_satellites p 1 ≤ 1 / m.halo_type1_fraction_satellites p := by
  unfold Assembly_Biased_HOD_Model.maximum_destruction_satellites
  dsimp only
  rw [frac_sat_one, if_pos hf]

theorem elt_cen_ne_zero_type {α : Type} (m : Assembly_Biased_HOD_Model α) (p : α)
    (t : ℚ) (ht : t ≠ 0) :
    m.destruction_centrals_elt p t = m.destruction_centrals_elt p 1 := by
  unfold Assembly_Biased_HOD_Model.destruction_centrals_elt
  dsimp only
  rw [if_neg ht, if_neg (one_ne_zero : (1:ℚ) ≠ 0)]

theorem elt_sat_ne_zero_type {α : Type} (m : Assembly_Biased_HOD_Model α) (p : α)
    (t : ℚ) (ht : t ≠ 0) :
    m.destruction_satellites_elt p t = m.destruction_satellites_elt p 1 := by
  unfold Assembly_Biased_HOD_Model.destruction_satellites_elt
  dsimp only
  rw [if_neg ht, if_neg (one_ne_zero : (1:ℚ) ≠ 0)]

theorem elt_cen_one_override {α : Type} (m : Assembly_Biased_HOD_Model α) (p : α)
    (h : m.halo_type1_fraction_centrals p = 1) :
    m.destruction_centrals_elt p 1 = 1 := by
  unfold Assembly_Biased_HOD_Model.destruction_centrals_elt
  dsimp only
  rw [if_neg (one_ne_zero : (1:ℚ) ≠ 0), frac_cen_one, if_pos h]

theorem elt_sat_one_override {α : Type} (m : Assembly_Biased_HOD_Model α) (p : α)
    (h : m.halo_type1_fraction_satellites p = 1) :
    m.destruction_satellites_elt p 1 = 1 := by
  unfold Assembly_Biased_HOD_Model.destruction_satellites_elt
  dsimp only
  rw [if_neg (one_ne_zero : (1:ℚ) ≠ 0), frac_sat_one, if_pos h]

theorem elt_cen_zero_override {α : Type} (m : Assembly_Biased_HOD_Model α) (p : α)
    (h : m.halo_type1_fraction_centrals p = 1) :
    m.destruction_centrals_elt p 0 = 0 := by
  unfold Assembly_Biased_HOD_Model.destruction_centrals_elt
  dsimp only
  rw [if_pos (rfl : (0:ℚ) = 0), frac_cen_one, h]
  norm_num

theorem elt_sat_zero_override {α : Type} (m : Assembly_Biased_HOD_Model α) (p : α)
    (h : m.halo_type1_fraction_satellites p = 1) :
    m.destruction_satellites_elt p 0 = 0 := by
  unfold Assembly_Biased_HOD_Model.destruction_satellites_elt
  dsimp only
  rw [if_pos (rfl : (0:ℚ) = 0), frac_sat_one, h]
  norm_num

theorem elt_cen_one_nonneg {α : Type} (m : Assembly_Biased_HOD_Model α) (p : α) :
    0 ≤ m.destruction_centrals_elt p 1 := by
  unfold Assembly_Biased_HOD_Model.destruction_centrals_elt
  dsimp only
  rw [if_neg (one_ne_zero : (1:ℚ) ≠ 0)]
  split_ifs <;> first | linarith | linarith [max_cen_nonneg m p 1]

theorem elt_sat_one_nonneg {α : Type} (m : Assembly_Biased_HOD_Model α) (p : α) :
    0 ≤ m.destruction_satellites_elt p 1 := by
  unfold Assembly_Biased_HOD_Model.destruction_satellites_elt
  dsimp only
  rw [if_neg (one_ne_zero : (1:ℚ) ≠ 0)]
  split_ifs <;> first | linarith | linarith [max_sat_nonneg m p 1]

theorem elt_cen_one_le_max {α : Type} (m : Assembly_Biased_HOD_Model α) (p : α)
    (h : m.halo_type1_fraction_centrals p ≠ 1) :
    m.destruction_centrals_elt p 1 ≤ m.maximum_destruction_centrals p 1 := by
  unfold Assembly_Biased_HOD_Model.destruction_centrals_elt
  dsimp only
  rw [if_neg (one_ne_zero : (1:ℚ) ≠ 0), frac_cen_one, if_neg h]
  split_ifs <;> linarith [max_cen_nonneg m p 1]

theorem elt_sat_one_le_max {α : Type} (m : Assembly_Biased_HOD_Model α) (p : α)
    (h : m.halo_type1_fraction_satellites p ≠ 1) :
    m.destruction_satellites_elt p 1 ≤ m.maximum_destruction_satellites p 1 := by
  unfold Assembly_Biased_HOD_Model.destruction_satellites_elt
  dsimp only
  rw [if_neg (one_ne_zero : (1:ℚ) ≠ 0), frac_sat_one, if_neg h]
  split_ifs <;> linarith [max_sat_nonneg m p 1]

theorem elt_cen_one_mul_le {α : Type} (m : Assembly_Biased_HOD_Model α) (p : α)
    (h0 : 0 ≤ m.halo_type1_fraction_centrals p)
    (h1 : m.halo_type1_fraction_centrals p ≤ 1) :
    m.destruction_centrals_elt p 1 * m.halo_type1_fraction_centrals p ≤ 1 := by
  by_cases hf1 : m.halo_type1_fraction_centrals p = 1
  · rw [elt_cen_one_override m p hf1, hf1]
    norm_num
  · by_cases hf0 : m.halo_type1_fraction_centrals p = 0
    · rw [hf0, mul_zero]
      norm_num
    · have hpos : 0 < m.halo_type1_fraction_centrals p :=
        lt_of_le_of_ne h0 (Ne.symm hf0)
      have h2 : m.destruction_centrals_elt p 1 ≤ 1 / m.halo_type1_fraction_centrals p :=
        le_trans (elt_cen_one_le_max m p hf1) (max_cen_le_inv m p hpos)
      calc m.destruction_centrals_elt p 1 * m.halo_type1_fraction_centrals p
          ≤ (1 / m.halo_type1_fraction_centrals p) * m.halo_type1_fraction_centrals p :=
            mul_le_mul_of_nonneg_right h2 h0
        _ = 1 := by field_simp

theorem elt_sat_one_mul_le {α : Type} (m : Assembly_Biased_HOD_Model α) (p : α)
    (h0 : 0 ≤ m.halo_type1_fraction_satellites p)
    (h1 : m.halo_type1_fraction_satellites p ≤ 1) :
    m.destruction_satellites_elt p 1 * m.halo_type1_fraction_satellites p ≤ 1 := by
  by_cases hf1 : m.halo_type1_fraction_satellites p = 1
  · rw [elt_sat_one_override m p hf1, hf1]
    norm_num
  · by_cases hf0 : m.halo_type1_fraction_satellites p = 0
    · rw [hf0, mul_zero]
      norm_num
    · have hpos : 0 < m.halo_type1_fraction_satellites p :=
        lt_of_le_of_ne h0 (Ne.symm hf0)
      have h2 : m.destruction_satellites_elt p 1 ≤ 1 / m.halo_type1_fraction_satellites p :=
        le_trans (elt_sat_one_le_max m p hf1) (max_sat_le_inv m p hpos)
      calc m.destruction_satellites_elt p 1 * m.halo_type1_fraction_satellites p
          ≤ (1 / m.halo_type1_fraction_satellites p) * m.halo_type1_fraction_satellites p :=
            mul_le_mul_of_nonneg_right h2 h0
        _ = 1 := by field_simp

theorem elt_cen_zero_eq {α : Type} (m : Assembly_Biased_HOD_Model α) (p : α)
    (h : m.halo_type1_fraction_centrals p < 1) :
    m.destruction_centrals_elt p 0 =
      (1 - m.destruction_centrals_elt p 1 * m.halo_type1_fraction_centrals p) /
        (1 - m.halo_type1_fraction_centrals p) := by
  unfold Assembly_Biased_HOD_Model.destruction_centrals_elt
  dsimp only
  rw [if_pos (rfl : (0:ℚ) = 0), if_neg (one_ne_zero : (1:ℚ) ≠ 0), frac_cen_one]
  rw [if_pos (by linarith : 1 - m.halo_type1_fraction_centrals p > 0)]

theorem elt_sat_zero_eq {α : Type} (m : Assembly_Biased_HOD_Model α) (p : α)
    (h : m.halo_type1_fraction_satellites p < 1) :
    m.destruction_satellites_elt p 0 =
      (1 - m.destruction_satellites_elt p 1 * m.halo_type1_fraction_satellites p) /
        (1 - m.halo_type1_fraction_satellites p) := by
  unfold Assembly_Biased_HOD_Model.destruction_satellites_elt
  dsimp only
  rw [if_pos (rfl : (0:ℚ) = 0), if_neg (one_ne_zero : (1:ℚ) ≠ 0), frac_sat_one]
  rw [if_pos (by linarith : 1 - m.halo_type1_fraction_satellites p > 0)]

theorem destruction_centrals_getD {α : Type} (m : Assembly_Biased_HOD_Model α)
    (ps : List α) (ts : List ℚ) (j : ℕ) (hj : j < ps.length)
    (hlen : ts.length = ps.length) :
    (m.destruction_centrals ps ts).getD j 0 =
      m.destruction_centrals_elt (ps.get ⟨j, hj⟩) (ts.getD j 0) := by
  have hj2 : j < (m.destruction_centrals ps ts).length := by
    simp only [Assembly_Biased_HOD_Model.destruction_centrals, List.length_zipWith, hlen]
    omega
  rw [getD_eq_getElem_of_lt _ _ _ hj2]
  unfold Assembly_Biased_HOD_Model.destruction_centrals
  rw [List.getElem_zipWith]
  congr 1
  all_goals
    simp [List.get_eq_getElem, List.getD_eq_getElem?_getD,
      List.getElem?_eq_getElem (show j < ts.length by omega)]

theorem destruction_satellites_getD {α : Type} (m : Assembly_Biased_HOD_Model α)
    (ps : List α) (ts : List ℚ) (j : ℕ) (hj : j < ps.length)
    (hlen : ts.length = ps.length) :
    (m.destruction_satellites ps ts).getD j 0 =
      m.destruction_satellites_elt (ps.get ⟨j, hj⟩) (ts.getD j 0) := by
  have hj2 : j < (m.destruction_satellites ps ts).length := by
    simp only [Assembly_Biased_HOD_Model.destruction_satellites, List.length_zipWith, hlen]
    omega
  rw [getD_eq_getElem_of_lt _ _ _ hj2]
  unfold Assembly_Biased_HOD_Model.destruction_satellites
  rw [List.getElem_zipWith]
  congr 1
  all_goals
    simp [List.get_eq_getElem, List.getD_eq_getElem?_getD,
      List.getElem?_eq_getElem (show j < ts.length by omega)]

theorem max_cen_eq_min {α : Type} (m : Assembly_Biased_HOD_Model α) (p : α)
    (hf : 0 < m.halo_type1_fraction_centrals p)
    (hn : 0 < m.baseline_mean_ncen p) :
    m.maximum_destruction_centrals p 1 =
      min (1 / m.halo_type1_fraction_centrals p) (1 / m.baseline_mean_ncen p) := by
  unfold Assembly_Biased_HOD_Model.maximum_destruction_centrals
  dsimp only
  rw [frac_cen_one, if_pos hf, if_pos hn]
  split_ifs with h
  · exact (min_eq_right h.le).symm
  · exact (min_eq_left (not_lt.mp h)).symm

theorem max_cen_eq_zero {α : Type} (m : Assembly_Biased_HOD_Model α) (p : α)
    (h : m.halo_type1_fraction_centrals p = 0 ∨ m.baseline_mean_ncen p = 0) :
    m.maximum_destruction_centrals p 1 = 0 := by
  unfold Assembly_Biased_HOD_Model.maximum_destruction_centrals
  dsimp only
  rw [frac_cen_one]
  rcases h with h | h
  · rw [h, if_neg (lt_irrefl (0:ℚ))]
    by_cases hn : m.baseline_mean_ncen p > 0
    · rw [if_pos hn,
        if_neg (by linarith [one_div_pos.mpr hn] : ¬(1 / m.baseline_mean_ncen p < 0))]
    · rw [if_neg hn, if_neg (lt_irrefl (0:ℚ))]
  · rw [h, if_neg (lt_irrefl (0:ℚ))]
    by_cases hf : m.halo_type1_fraction_centrals p > 0
    · rw [if_pos hf, if_pos (one_div_pos.mpr hf)]
    · rw [if_neg hf, if_neg (lt_irrefl (0:ℚ))]

theorem elt_cen_scenario {α : Type} (m : Assembly_Biased_HOD_Model α) (p : α)
    (hf : m.halo_type1_fraction_centrals p = 0)
    (hu : m.unconstrained_central_destruction_halo_type1 p = 5) :
    m.destruction_centrals_elt p 1 = 0 := by
  unfold Assembly_Biased_HOD_Model.destruction_centrals_elt
  dsimp only
  rw [if_neg (one_ne_zero : (1:ℚ) ≠ 0), frac_cen_one, hf,
    if_neg (by norm_num : (0:ℚ) ≠ 1), hu,
    if_neg (by norm_num : ¬(5:ℚ) < 0),
    max_cen_eq_zero m p (Or.inl hf),
    if_pos (by norm_num : (5:ℚ) > 0)]

/-- C1.  Conservation law of the destruction engine: at every array
position, for type-1 fractions in `[0,1]` and any unconstrained
destruction functions and baseline occupations,
`F1·D(p,1)·N + (1−F1)·D(p,0)·N = N` holds exactly, for centrals and for
satellites, including the boundary cases `F1 = 0`, `F1 = 1`, `N = 0`. -/
theorem destruction_conservation_law {α : Type} (m : Assembly_Biased_HOD_Model α)
    (ps : List α) (ts1 ts0 : List ℚ) (j : ℕ) (hj : j < ps.length)
    (hl1 : ts1.length = ps.length) (hl0 : ts0.length = ps.length)
    (ht1 : ts1.getD j 0 = 1) (ht0 : ts0.getD j 0 = 0)
    (hc0 : 0 ≤ m.halo_type1_fraction_centrals (ps.get ⟨j, hj⟩))
    (hc1 : m.halo_type1_fraction_centrals (ps.get ⟨j, hj⟩) ≤ 1)
    (hs0 : 0 ≤ m.halo_type1_fraction_satellites (ps.get ⟨j, hj⟩))
    (hs1 : m.halo_type1_fraction_satellites (ps.get ⟨j, hj⟩) ≤ 1) :
    m.halo_type1_fraction_centrals (ps.get ⟨j, hj⟩) *
        (m.destruction_centrals ps ts1).getD j 0 *
        m.baseline_mean_ncen (ps.get ⟨j, hj⟩) +
      (1 - m.halo_type1_fraction_centrals (ps.get ⟨j, hj⟩)) *
        (m.destruction_centrals ps ts0).getD j 0 *
        m.baseline_mean_ncen (ps.get ⟨j, hj⟩) =
      m.baseline_mean_ncen (ps.get ⟨j, hj⟩) ∧
    m.halo_type1_fraction_satellites (ps.get ⟨j, hj⟩) *
        (m.destruction_satellites ps ts1).getD j 0 *
        m.baseline_mean_nsat (ps.get ⟨j, hj⟩) +
      (1 - m.halo_type1_fraction_satellites (ps.get ⟨j, hj⟩)) *
        (m.destruction_satellites ps ts0).getD j 0 *
        m.baseline_mean_nsat (ps.get ⟨j, hj⟩) =
      m.baseline_mean_nsat (ps.get ⟨j, hj⟩) := by
  rw [destruction_centrals_getD m ps ts1 j hj hl1,
    destruction_centrals_getD m ps ts0 j hj hl0,
    destruction_satellites_getD m ps ts1 j hj hl1,
    destruction_satellites_getD m ps ts0 j hj hl0, ht1, ht0]
  constructor
  · by_cases hf1 : m.halo_type1_fraction_centrals (ps.get ⟨j, hj⟩) = 1
    · rw [elt_cen_one_override m _ hf1, elt_cen_zero_override m _ hf1, hf1]
      ring
    · have hlt : m.halo_type1_fraction_centrals (ps.get ⟨j, hj⟩) < 1 :=
        lt_of_le_of_ne hc1 hf1
      have hne : 1 - m.halo_type1_fraction_centrals (ps.get ⟨j, hj⟩) ≠ 0 := by
        linarith
      rw [elt_cen_zero_eq m _ hlt]
      set F := m.halo_type1_fraction_centrals (ps.get ⟨j, hj⟩) with hF
      set D := m.destruction_centrals_elt (ps.get ⟨j, hj⟩) 1 with hD
      have key : (1 - F) * ((1 - D * F) / (1 - F)) = 1 - D * F := by
        field_simp
      rw [key]
      ring
  · by_cases hf1 : m.halo_type1_fraction_satellites (ps.get ⟨j, hj⟩) = 1
    · rw [elt_sat_one_override m _ hf1, elt_sat_zero_override m _ hf1, hf1]
      ring
    · have hlt : m.halo_type1_fraction_satellites (ps.get ⟨j, hj⟩) < 1 :=
        lt_of_le_of_ne hs1 hf1
      have hne : 1 - m.halo_type1_fraction_satellites (ps.get ⟨j, hj⟩) ≠ 0 := by
        linarith
      rw [elt_sat_zero_eq m _ hlt]
      set F := m.halo_type1_fraction_satellites (ps.get ⟨j, hj⟩) with hF
      set D := m.destruction_satellites_elt (ps.get ⟨j, hj⟩) 1 with hD
      have key : (1 - F) * ((1 - D * F) / (1 - F)) = 1 - D * F := by
        field_simp
      rw [key]
      ring

/-- Witness for C1: concrete model `wmHalf` at `p = 0`, type-1 and
type-0 labellings. -/
theorem destruction_conservation_law_witness :
    ((0:ℚ) ≤ wmHalf.halo_type1_fraction_centrals 0 ∧
      wmHalf.halo_type1_fraction_centrals 0 ≤ 1 ∧
      0 ≤ wmHalf.halo_type1_fraction_satellites 0 ∧
      wmHalf.halo_type1_fraction_satellites 0 ≤ 1) ∧
    (wmHalf.halo_type1_fraction_centrals 0 *
        (wmHalf.destruction_centrals [0] [1]).getD 0 0 *
        wmHalf.baseline_mean_ncen 0 +
      (1 - wmHalf.halo_type1_fraction_centrals 0) *
        (wmHalf.destruction_centrals [0] [0]).getD 0 0 *
        wmHalf.baseline_mean_ncen 0 =
      wmHalf.baseline_mean_ncen 0 ∧
    wmHalf.halo_type1_fraction_satellites 0 *
        (wmHalf.destruction_satellites [0] [1]).getD 0 0 *
        wmHalf.baseline_mean_nsat 0 +
      (1 - wmHalf.halo_type1_fraction_satellites 0) *
        (wmHalf.destruction_satellites [0] [0]).getD 0 0 *
        wmHalf.baseline_mean_nsat 0 =
      wmHalf.baseline_mean_nsat 0) := by
  refine ⟨⟨?_, ?_, ?_, ?_⟩, ?_⟩
  · norm_num [wmHalf]
  · norm_num [wmHalf]
  · norm_num [wmHalf]
  · norm_num [wmHalf]
  · exact destruction_conservation_law wmHalf [0] [1] [0] 0 (by norm_num)
      (by simp) (by simp) rfl rfl (by norm_num [wmHalf]) (by norm_num [wmHalf])
      (by norm_num [wmHalf]) (by norm_num [wmHalf])

/-- C2.  Boundary override: at every array position labelled type 1
where the type-1 fraction equals exactly 1, `destruction_centrals` and
`destruction_satellites` return exactly 1, whatever the unconstrained
destruction functions return there (the override supersedes the 0-floor
and the ceiling clamp). -/
theorem destruction_boundary_override {α : Type} (m : Assembly_Biased_HOD_Model α)
    (ps : List α) (ts : List ℚ) (j : ℕ) (hj : j < ps.length)
    (hlen : ts.length = ps.length) (ht : ts.getD j 0 = 1)
    (hcen : m.halo_type1_fraction_centrals (ps.get ⟨j, hj⟩) = 1)
    (hsat : m.halo_type1_fraction_satellites (ps.get ⟨j, hj⟩) = 1) :
    (m.destruction_centrals ps ts).getD j 0 = 1 ∧
    (m.destruction_satellites ps ts).getD j 0 = 1 := by
  rw [destruction_centrals_getD m ps ts j hj hlen,
    destruction_satellites_getD m ps ts j hj hlen, ht]
  exact ⟨elt_cen_one_override m _ hcen, elt_sat_one_override m _ hsat⟩

/-- Witness for C2: model `wmOne` (type-1 fraction identically 1,
unconstrained values 7 and −3) at `p = 0`. -/
theorem destruction_boundary_override_witness :
    (([(1:ℚ)].getD 0 0 = 1) ∧
      wmOne.halo_type1_fraction_centrals 0 = 1 ∧
      wmOne.halo_type1_fraction_satellites 0 = 1) ∧
    ((wmOne.destruction_centrals [0] [1]).getD 0 0 = 1 ∧
      (wmOne.destruction_satellites [0] [1]).getD 0 0 = 1) := by
  refine ⟨⟨rfl, ?_, ?_⟩, ?_⟩
  · norm_num [wmOne]
  · norm_num [wmOne]
  · exact destruction_boundary_override wmOne [0] [1] 0 (by norm_num) (by simp)
      rfl (by norm_num [wmOne]) (by norm_num [wmOne])

/-- C3.  Non-negativity: at every array position, for any halo-type
labelling and type-1 fractions in `[0,1]`, the values returned by
`destruction_centrals` and `destruction_satellites` are nonnegative —
both the clamped type-1 branch and the derived type-0 branch. -/
theorem destruction_nonneg {α : Type} (m : Assembly_Biased_HOD_Model α)
    (ps : List α) (ts : List ℚ) (j : ℕ) (hj : j < ps.length)
    (hlen : ts.length = ps.length)
    (hc0 : 0 ≤ m.halo_type1_fraction_centrals (ps.get ⟨j, hj⟩))
    (hc1 : m.halo_type1_fraction_centrals (ps.get ⟨j, hj⟩) ≤ 1)
    (hs0 : 0 ≤ m.halo_type1_fraction_satellites (ps.get ⟨j, hj⟩))
    (hs1 : m.halo_type1_fraction_satellites (ps.get ⟨j, hj⟩) ≤ 1) :
    0 ≤ (m.destruction_centrals ps ts).getD j 0 ∧
    0 ≤ (m.destruction_satellites ps ts).getD j 0 := by
  rw [destruction_centrals_getD m ps ts j hj hlen,
    destruction_satellites_getD m ps ts j hj hlen]
  constructor
  · by_cases ht : ts.getD j 0 = 0
    · rw [ht]
      by_cases hf1 : m.halo_type1_fraction_centrals (ps.get ⟨j, hj⟩) = 1
      · rw [elt_cen_zero_override m _ hf1]
      · have hlt : m.halo_type1_fraction_centrals (ps.get ⟨j, hj⟩) < 1 :=
          lt_of_le_of_ne hc1 hf1
        rw [elt_cen_zero_eq m _ hlt]
        apply div_nonneg
        · linarith [elt_cen_one_mul_le m (ps.get ⟨j, hj⟩) hc0 hc1]
        · linarith
    · rw [elt_cen_ne_zero_type m _ _ ht]
      exact elt_cen_one_nonneg m _
  · by_cases ht : ts.getD j 0 = 0
    · rw [ht]
      by_cases hf1 : m.halo_type1_fraction_satellites (ps.get ⟨j, hj⟩) = 1
      · rw [elt_sat_zero_override m _ hf1]
      · have hlt : m.halo_type1_fraction_satellites (ps.get ⟨j, hj⟩) < 1 :=
          lt_of_le_of_ne hs1 hf1
        rw [elt_sat_zero_eq m _ hlt]
        apply div_nonneg
        · linarith [elt_sat_one_mul_le m (ps.get ⟨j, hj⟩) hs0 hs1]
        · linarith
    · rw [elt_sat_ne_zero_type m _ _ ht]
      exact elt_sat_one_nonneg m _

/-- Witness for C3: model `wmHalf` (whose unconstrained satellite
destruction is the negative constant −2) at `p = 0`, type-0 labelling. -/
theorem destruction_nonneg_witness :
    ((0:ℚ) ≤ wmHalf.halo_type1_fraction_centrals 0 ∧
      wmHalf.halo_type1_fraction_centrals 0 ≤ 1 ∧
      0 ≤ wmHalf.halo_type1_fraction_satellites 0 ∧
      wmHalf.halo_type1_fraction_satellites 0 ≤ 1) ∧
    (0 ≤ (wmHalf.destruction_centrals [0] [0]).getD 0 0 ∧
      0 ≤ (wmHalf.destruction_satellites [0] [0]).getD 0 0) := by
  refine ⟨⟨?_, ?_, ?_, ?_⟩, ?_⟩
  · norm_num [wmHalf]
  · norm_num [wmHalf]
  · norm_num [wmHalf]
  · norm_num [wmHalf]
  · exact destruction_nonneg wmHalf [0] [0] 0 (by norm_num) (by simp)
      (by norm_num [wmHalf]) (by norm_num [wmHalf]) (by norm_num [wmHalf])
      (by norm_num [wmHalf])

/-- C4.  Central ceiling clamp, at every array position labelled
type 1: the value returned by `destruction_centrals` never exceeds
`maximum_destruction_centrals` (unless the `F1 = 1` override applies);
the ceiling equals `min(1/F1, 1/⟨Ncen⟩)` when both are positive and 0
when either vanishes; in particular with `F1 = 0` and unconstrained
value 5 the returned destruction is exactly 0. -/
theorem central_ceiling_clamp {α : Type} (m : Assembly_Biased_HOD_Model α)
    (ps : List α) (ts : List ℚ) (j : ℕ) (hj : j < ps.length)
    (hlen : ts.length = ps.length) (ht : ts.getD j 0 = 1) :
    (m.halo_type1_fraction_centrals (ps.get ⟨j, hj⟩) ≠ 1 →
      (m.destruction_centrals ps ts).getD j 0 ≤
        m.maximum_destruction_centrals (ps.get ⟨j, hj⟩) 1) ∧
    (0 < m.halo_type1_fraction_centrals (ps.get ⟨j, hj⟩) →
      0 < m.baseline_mean_ncen (ps.get ⟨j, hj⟩) →
      m.maximum_destruction_centrals (ps.get ⟨j, hj⟩) 1 =
        min (1 / m.halo_type1_fraction_centrals (ps.get ⟨j, hj⟩))
          (1 / m.baseline_mean_ncen (ps.get ⟨j, hj⟩))) ∧
    (m.halo_type1_fraction_centrals (ps.get ⟨j, hj⟩) = 0 ∨
        m.baseline_mean_ncen (ps.get ⟨j, hj⟩) = 0 →
      m.maximum_destruction_centrals (ps.get ⟨j, hj⟩) 1 = 0) ∧
    (m.halo_type1_fraction_centrals (ps.get ⟨j, hj⟩) = 0 →
      m.unconstrained_central_destruction_halo_type1 (ps.get ⟨j, hj⟩) = 5 →
      (m.destruction_centrals ps ts).getD j 0 = 0) := by
  rw [destruction_centrals_getD m ps ts j hj hlen, ht]
  refine ⟨?_, ?_, ?_, ?_⟩
  · intro h
    exact elt_cen_one_le_max m _ h
  · intro hf hn
    exact max_cen_eq_min m _ hf hn
  · intro h
    exact max_cen_eq_zero m _ h
  · intro hf hu
    exact elt_cen_scenario m _ hf hu

/-- Witness for C4: model `wmZero` (central type-1 fraction 0,
unconstrained central value 5) at `p = 0` with type-1 labelling, so the
ceiling and the scenario clauses are exercised with true hypotheses. -/
theorem central_ceiling_clamp_witness :
    (([(1:ℚ)].getD 0 0 = 1)) ∧
    ((wmZero.halo_type1_fraction_centrals 0 ≠ 1 →
      (wmZero.destruction_centrals [0] [1]).getD 0 0 ≤
        wmZero.maximum_destruction_centrals 0 1) ∧
    (0 < wmZero.halo_type1_fraction_centrals 0 →
      0 < wmZero.baseline_mean_ncen 0 →
      wmZero.maximum_destruction_centrals 0 1 =
        min (1 / wmZero.halo_type1_fraction_centrals 0)
          (1 / wmZero.baseline_mean_ncen 0)) ∧
    (wmZero.halo_type1_fraction_centrals 0 = 0 ∨
        wmZero.baseline_mean_ncen 0 = 0 →
      wmZero.maximum_destruction_centrals 0 1 = 0) ∧
    (wmZero.halo_type1_fraction_centrals 0 = 0 →
      wmZero.unconstrained_central_destruction_halo_type1 0 = 5 →
      (wmZero.destruction_centrals [0] [1]).getD 0 0 = 0)) :=
  ⟨rfl, central_ceiling_clamp wmZero [0] [1] 0 (by norm_num) (by simp) rfl⟩

/-! ## Helper lemmas: halo type calculator -/

theorem pyRound_nonneg (q : ℚ) (h : 0 ≤ q) : 0 ≤ pyRound q := by
  unfold pyRound
  rw [if_neg (not_lt.mpr h)]
  have : (0:ℤ) ≤ ⌊(1:ℚ)/2⌋ := by norm_num
  exact le_trans this (Int.floor_le_floor (by linarith))

theorem pyRound_le_of_le (q : ℚ) (n : ℕ) (h0 : 0 ≤ q) (h : q ≤ (n:ℚ)) :
    pyRound q ≤ (n:ℤ) := by
  unfold pyRound
  rw [if_neg (not_lt.mpr h0)]
  have h1 : ⌊q + 1/2⌋ ≤ ⌊(n:ℚ) + 1/2⌋ := Int.floor_le_floor (by linarith)
  have h2 : ⌊(n:ℚ) + 1/2⌋ = (n:ℤ) := by
    rw [Int.floor_eq_iff]
    constructor
    · push_cast
      linarith
    · push_cast
      linarith
  omega

theorem getD_set_zero (ts : List ℚ) (p j : ℕ) :
    (ts.set p 0).getD j 0 = if p = j ∧ p < ts.length then 0 else ts.getD j 0 := by
  rw [List.getD_eq_getElem?_getD, List.getD_eq_getElem?_getD, List.getElem?_set]
  by_cases h1 : p = j
  · subst h1
    by_cases h2 : p < ts.length
    · simp [h2]
    · simp only [if_pos rfl, if_neg h2, and_false, if_false, h2, and_true, true_and]
      rw [List.getElem?_eq_none (by omega)]
      simp
  · simp [h1]

theorem foldl_set_zero_getD (ps : List ℕ) (ts : List ℚ) (j : ℕ) :
    (ps.foldl (fun l r => l.set r 0) ts).getD j 0 =
      if j ∈ ps ∧ j < ts.length then 0 else ts.getD j 0 := by
  induction ps generalizing ts with
  | nil => simp
  | cons p ps ih =>
    rw [List.foldl_cons, ih, List.length_set, getD_set_zero]
    by_cases h2 : j < ts.length
    · by_cases h1 : j ∈ ps
      · simp [h1, h2, List.mem_cons]
      · by_cases h3 : p = j
        · subst h3
          simp [h1, h2, List.mem_cons]
        · have h4 : ¬ j = p := fun h => h3 h.symm
          simp [h1, h2, h3, h4, List.mem_cons]
    · simp [h2]
      intro h h'
      omega

theorem foldl_set_zero_length (ps : List ℕ) (ts : List ℚ) :
    (ps.foldl (fun l r => l.set r 0) ts).length = ts.length := by
  induction ps generalizing ts with
  | nil => rfl
  | cons p ps ih => rw [List.foldl_cons, ih, List.length_set]

theorem processBin_getD (secondary : List ℚ) (binIdx : List ℤ) (frac : List ℚ)
    (b : ℤ) (ts : List ℚ) (j : ℕ) :
    (processBin secondary binIdx frac b ts).getD j 0 =
      if j ∈ zeroedPositions secondary binIdx frac b ∧ j < ts.length then 0
      else ts.getD j 0 := by
  unfold processBin
  exact foldl_set_zero_getD _ _ _

theorem processBin_length (secondary : List ℚ) (binIdx : List ℤ) (frac : List ℚ)
    (b : ℤ) (ts : List ℚ) :
    (processBin secondary binIdx frac b ts).length = ts.length :=
  foldl_set_zero_length _ _

theorem foldl_processBin_getD (secondary : List ℚ) (binIdx : List ℤ)
    (frac : List ℚ) (bs : List ℤ) (ts : List ℚ) (j : ℕ) :
    ((bs.foldl (fun t b => processBin secondary binIdx frac b t) ts).getD j 0) =
      if (∃ b ∈ bs, j ∈ zeroedPositions secondary binIdx frac b) ∧ j < ts.length
      then 0 else ts.getD j 0 := by
  induction bs generalizing ts with
  | nil => simp
  | cons b bs ih =>
    rw [List.foldl_cons, ih, processBin_length, processBin_getD]
    by_cases h2 : j < ts.length
    · by_cases h1 : ∃ b' ∈ bs, j ∈ zeroedPositions secondary binIdx frac b'
      · have hex : ∃ b' ∈ b :: bs, j ∈ zeroedPositions secondary binIdx frac b' := by
          obtain ⟨b', hb', hj⟩ := h1
          exact ⟨b', List.mem_cons_of_mem _ hb', hj⟩
        simp [h1, h2, hex]
      · by_cases h3 : j ∈ zeroedPositions secondary binIdx frac b
        · have hex : ∃ b' ∈ b :: bs, j ∈ zeroedPositions secondary binIdx frac b' :=
            ⟨b, List.mem_cons_self _ _, h3⟩
          simp [h1, h2, h3, hex]
        · have hnex : ¬ ∃ b' ∈ b :: bs, j ∈ zeroedPositions secondary binIdx frac b' := by
            rintro ⟨b', hb', hj⟩
            rcases List.mem_cons.mp hb' with rfl | hb'
            · exact h3 hj
            · exact h1 ⟨b', hb', hj⟩
          simp [h1, h2, h3, hnex]
    · simp [h2]

theorem mem_binMembersOf (binIdx : List ℤ) (b : ℤ) (j : ℕ) :
    j ∈ binMembersOf binIdx b ↔ j < binIdx.length ∧ binIdx.getD j 0 = b := by
  unfold binMembersOf
  simp [List.mem_filter, List.mem_range]

theorem binMembersOf_nodup (binIdx : List ℤ) (b : ℤ) :
    (binMembersOf binIdx b).Nodup :=
  (List.nodup_range _).filter _

theorem argsort_perm (xs : List ℚ) : (argsort xs).Perm (List.range xs.length) :=
  List.perm_insertionSort _ _

theorem argsort_length (xs : List ℚ) : (argsort xs).length = xs.length := by
  rw [(argsort_perm xs).length_eq, List.length_range]

theorem argsort_nodup (xs : List ℚ) : (argsort xs).Nodup :=
  ((argsort_perm xs).nodup_iff).mpr (List.nodup_range _)

theorem mem_argsort_lt (xs : List ℚ) (r : ℕ) (hr : r ∈ argsort xs) :
    r < xs.length := by
  have h := (argsort_perm xs).mem_iff.mp hr
  simpa [List.mem_range] using h

theorem zeroedPositions_subset (secondary : List ℚ) (binIdx : List ℤ)
    (frac : List ℚ) (b : ℤ) :
    ∀ j ∈ zeroedPositions secondary binIdx frac b, j ∈ binMembersOf binIdx b := by
  intro j hj
  unfold zeroedPositions at hj
  simp only [List.mem_map] at hj
  obtain ⟨r, hr, rfl⟩ := hj
  have hr2 : r ∈ argsort ((binMembersOf binIdx b).map fun i => secondary.getD i 0) := by
    unfold pySlice at hr
    split_ifs at hr <;> exact List.mem_of_mem_take hr
  have hlt : r < (binMembersOf binIdx b).length := by
    have h := mem_argsort_lt _ _ hr2
    simpa [List.length_map] using h
  rw [getD_eq_getElem_of_lt _ _ _ hlt]
  exact List.getElem_mem hlt

theorem halo_type_calculator_getD (primary secondary : List ℚ) (f : ℚ → ℚ)
    (spacing eps : ℚ) (j : ℕ) (hj : j < primary.length) :
    (halo_type_calculator primary secondary f spacing eps).getD j 0 =
      if j ∈ zeroedPositions secondary (binIndices primary spacing eps)
          ((binMidpoints primary spacing eps).map (fun q => 1 - f q))
          ((binIndices primary spacing eps).getD j 0)
      then 0 else 1 := by
  unfold halo_type_calculator
  dsimp only
  rw [foldl_processBin_getD, List.length_replicate]
  have hjlen : j < (binIndices primary spacing eps).length := by
    unfold binIndices
    simpa using hj
  have hrep : (List.replicate primary.length (1:ℚ)).getD j 0 = 1 := by
    rw [getD_eq_getElem_of_lt _ _ _ (by simpa using hj), List.getElem_replicate]
  by_cases hmem : j ∈ zeroedPositions secondary (binIndices primary spacing eps)
      ((binMidpoints primary spacing eps).map (fun q => 1 - f q))
      ((binIndices primary spacing eps).getD j 0)
  · have hex : ∃ b ∈ (binIndices primary spacing eps).dedup,
        j ∈ zeroedPositions secondary (binIndices primary spacing eps)
          ((binMidpoints primary spacing eps).map (fun q => 1 - f q)) b := by
      refine ⟨(binIndices primary spacing eps).getD j 0, ?_, hmem⟩
      rw [List.mem_dedup, getD_eq_getElem_of_lt _ _ _ hjlen]
      exact List.getElem_mem hjlen
    rw [if_pos ⟨hex, hj⟩, if_pos hmem]
  · have hnex : ¬ ∃ b ∈ (binIndices primary spacing eps).dedup,
        j ∈ zeroedPositions secondary (binIndices primary spacing eps)
          ((binMidpoints primary spacing eps).map (fun q => 1 - f q)) b := by
      rintro ⟨b, hb, hjb⟩
      have hmem2 := zeroedPositions_subset _ _ _ _ _ hjb
      rw [mem_binMembersOf] at hmem2
      rw [← hmem2.2] at hjb
      exact hmem hjb
    rw [if_neg (fun h => hnex h.1), if_neg hmem, hrep]

theorem foldl_min_le_init (as : List ℚ) (a : ℚ) : as.foldl min a ≤ a := by
  induction as generalizing a with
  | nil => exact le_refl a
  | cons b bs ih => exact le_trans (ih (min a b)) (min_le_left a b)

theorem foldl_min_le_mem (as : List ℚ) (a x : ℚ) (hx : x ∈ as) :
    as.foldl min a ≤ x := by
  induction as generalizing a with
  | nil => cases hx
  | cons b bs ih =>
    rcases List.mem_cons.mp hx with rfl | hx'
    · exact le_trans (foldl_min_le_init bs (min a x)) (min_le_right a x)
    · exact ih (min a b) hx'

theorem listMin_le (l : List ℚ) (x : ℚ) (hx : x ∈ l) : listMin l ≤ x := by
  cases l with
  | nil => cases hx
  | cons a as =>
    unfold listMin
    rcases List.mem_cons.mp hx with rfl | hx'
    · exact foldl_min_le_init as x
    · exact foldl_min_le_mem as a x hx'

theorem init_le_foldl_max (as : List ℚ) (a : ℚ) : a ≤ as.foldl max a := by
  induction as generalizing a with
  | nil => exact le_refl a
  | cons b bs ih => exact le_trans (le_max_left a b) (ih (max a b))

theorem mem_le_foldl_max (as : List ℚ) (a x : ℚ) (hx : x ∈ as) :
    x ≤ as.foldl max a := by
  induction as generalizing a with
  | nil => cases hx
  | cons b bs ih =>
    rcases List.mem_cons.mp hx with rfl | hx'
    · exact le_trans (le_max_right a x) (init_le_foldl_max bs (max a x))
    · exact ih (max a b) hx'

theorem le_listMax (l : List ℚ) (x : ℚ) (hx : x ∈ l) : x ≤ listMax l := by
  cases l with
  | nil => cases hx
  | cons a as =>
    unfold listMax
    rcases List.mem_cons.mp hx with rfl | hx'
    · exact init_le_foldl_max as x
    · exact mem_le_foldl_max as a x hx'

theorem binEdges_length (primary : List ℚ) (spacing eps : ℚ) :
    (binEdges primary spacing eps).length = numberOfBins primary spacing eps := by
  unfold binEdges linspace
  rw [List.length_map, List.length_range]

theorem binEdges_getD (primary : List ℚ) (spacing eps : ℚ) (k : ℕ)
    (hk : k < numberOfBins primary spacing eps) :
    (binEdges primary spacing eps).getD k 0 =
      listMin primary + (k : ℚ) *
        (listMax primary + eps - listMin primary) /
          ((numberOfBins primary spacing eps : ℚ) - 1) := by
  rw [getD_eq_getElem_of_lt _ _ _ (by rw [binEdges_length]; exact hk)]
  unfold binEdges linspace
  simp only [List.getElem_map, List.getElem_range]

theorem binEdges_getD_mem (primary : List ℚ) (spacing eps : ℚ) (k : ℕ)
    (hk : k < numberOfBins primary spacing eps) :
    (binEdges primary spacing eps).getD k 0 ∈ binEdges primary spacing eps := by
  rw [getD_eq_getElem_of_lt _ _ _ (by rw [binEdges_length]; exact hk)]
  exact List.getElem_mem _

theorem binMidpoints_length (primary : List ℚ) (spacing eps : ℚ) :
    (binMidpoints primary spacing eps).length =
      numberOfBins primary spacing eps - 1 := by
  unfold binMidpoints
  rw [List.length_zipWith, List.length_tail, binEdges_length]
  omega

theorem binIndices_range (primary : List ℚ) (spacing eps : ℚ)
    (heps : 0 < eps) (hN : 2 ≤ numberOfBins primary spacing eps) :
    ∀ b ∈ binIndices primary spacing eps,
      0 ≤ b ∧ b.toNat < numberOfBins primary spacing eps - 1 := by
  intro b hb
  unfold binIndices at hb
  simp only [List.mem_map] at hb
  obtain ⟨x, hx, rfl⟩ := hb
  unfold digitize
  have hNlen : (binEdges primary spacing eps).length =
      numberOfBins primary spacing eps := binEdges_length primary spacing eps
  -- lower bound: the first edge is listMin primary ≤ x
  have hfirst : (binEdges primary spacing eps).getD 0 0 = listMin primary := by
    rw [binEdges_getD primary spacing eps 0 (by omega)]
    simp
  have hcount_pos :
      0 < (binEdges primary spacing eps).countP (fun e => decide (e ≤ x)) := by
    rw [List.countP_pos]
    refine ⟨(binEdges primary spacing eps).getD 0 0,
      binEdges_getD_mem primary spacing eps 0 (by omega), ?_⟩
    rw [hfirst]
    simpa using listMin_le primary x hx
  -- upper bound: the last edge is listMax + eps > x
  have hlast : (binEdges primary spacing eps).getD
      (numberOfBins primary spacing eps - 1) 0 = listMax primary + eps := by
    rw [binEdges_getD primary spacing eps _ (by omega)]
    have hcast : ((numberOfBins primary spacing eps - 1 : ℕ) : ℚ) =
        (numberOfBins primary spacing eps : ℚ) - 1 := by
      push_cast [Nat.cast_sub (by omega : 1 ≤ numberOfBins primary spacing eps)]
      ring
    rw [hcast]
    have hne : ((numberOfBins primary spacing eps : ℚ) - 1) ≠ 0 := by
      have h2 : (2:ℚ) ≤ (numberOfBins primary spacing eps : ℚ) := by
        exact_mod_cast hN
      linarith
    field_simp
  have hcount_lt :
      (binEdges primary spacing eps).countP (fun e => decide (e ≤ x)) <
        numberOfBins primary spacing eps := by
    have hle : (binEdges primary spacing eps).countP (fun e => decide (e ≤ x)) ≤
        (binEdges primary spacing eps).length := List.countP_le_length _
    rcases lt_or_eq_of_le hle with h | h
    · rwa [hNlen] at h
    · exfalso
      rw [List.countP_eq_length] at h
      have hmem := h _ (binEdges_getD_mem primary spacing eps
        (numberOfBins primary spacing eps - 1) (by omega))
      rw [hlast] at hmem
      simp only [decide_eq_true_eq] at hmem
      have hxle := le_listMax primary x hx
      linarith
  constructor
  · omega
  · omega

theorem frac_getD (primary : List ℚ) (spacing eps : ℚ) (f : ℚ → ℚ) (i : ℕ)
    (hi : i < (binMidpoints primary spacing eps).length) :
    ((binMidpoints primary spacing eps).map (fun q => 1 - f q)).getD i 0 =
      1 - f ((binMidpoints primary spacing eps).getD i 0) := by
  rw [getD_eq_getElem_of_lt _ _ _ (by simpa using hi),
    getD_eq_getElem_of_lt _ _ _ hi, List.getElem_map]

theorem pySlice_sublist {β : Type} (k : ℤ) (l : List β) :
    (pySlice k l).Sublist l := by
  unfold pySlice
  split_ifs <;> exact List.take_sublist _ _

theorem zeroedPositions_length (secondary : List ℚ) (binIdx : List ℤ)
    (frac : List ℚ) (b : ℤ)
    (h0 : 0 ≤ frac.getD b.toNat 0) (h1 : frac.getD b.toNat 0 ≤ 1) :
    (zeroedPositions secondary binIdx frac b).length =
      (pyRound (((binMembersOf binIdx b).length : ℚ) *
        frac.getD b.toNat 0)).toNat := by
  unfold zeroedPositions
  rw [List.length_map]
  have hs0 : 0 ≤ pyRound (((binMembersOf binIdx b).length : ℚ) *
      frac.getD b.toNat 0) :=
    pyRound_nonneg _ (mul_nonneg (by positivity) h0)
  have hsn : pyRound (((binMembersOf binIdx b).length : ℚ) *
      frac.getD b.toNat 0) ≤ ((binMembersOf binIdx b).length : ℤ) :=
    pyRound_le_of_le _ _ (mul_nonneg (by positivity) h0)
      (mul_le_of_le_one_right (by positivity) h1)
  unfold pySlice
  rw [if_neg (not_lt.mpr hs0), List.length_take, argsort_length, List.length_map]
  omega

theorem zeroedPositions_nodup (secondary : List ℚ) (binIdx : List ℤ)
    (frac : List ℚ) (b : ℤ) :
    (zeroedPositions secondary binIdx frac b).Nodup := by
  unfold zeroedPositions
  apply List.Nodup.map_on
  · intro r1 h1 r2 h2 heq
    have hm1 : r1 ∈ argsort ((binMembersOf binIdx b).map fun i => secondary.getD i 0) :=
      (pySlice_sublist _ _).mem h1
    have hm2 : r2 ∈ argsort ((binMembersOf binIdx b).map fun i => secondary.getD i 0) :=
      (pySlice_sublist _ _).mem h2
    have hl1 : r1 < (binMembersOf binIdx b).length := by
      have h := mem_argsort_lt _ _ hm1
      simpa [List.length_map] using h
    have hl2 : r2 < (binMembersOf binIdx b).length := by
      have h := mem_argsort_lt _ _ hm2
      simpa [List.length_map] using h
    rw [getD_eq_getElem_of_lt _ _ _ hl1, getD_eq_getElem_of_lt _ _ _ hl2] at heq
    exact (List.Nodup.getElem_inj_iff (binMembersOf_nodup binIdx b)).mp heq
  · exact (argsort_nodup _).sublist (pySlice_sublist _ _)

theorem length_filter_mem_of_nodup (members zb : List ℕ)
    (hsub : ∀ j ∈ zb, j ∈ members)
    (hmem_nodup : members.Nodup) (hzb_nodup : zb.Nodup) :
    (members.filter (fun j => decide (j ∈ zb))).length = zb.length := by
  apply List.Perm.length_eq
  apply (List.perm_ext_iff_of_nodup (hmem_nodup.filter _) hzb_nodup).mpr
  intro a
  simp only [List.mem_filter, decide_eq_true_eq]
  constructor
  · rintro ⟨_, h⟩
    exact h
  · intro h
    exact ⟨hsub a h, h⟩

theorem foldl_processBin_length (secondary : List ℚ) (binIdx : List ℤ)
    (frac : List ℚ) (bs : List ℤ) (ts : List ℚ) :
    (bs.foldl (fun t b => processBin secondary binIdx frac b t) ts).length =
      ts.length := by
  induction bs generalizing ts with
  | nil => rfl
  | cons b bs ih => rw [List.foldl_cons, ih, processBin_length]

theorem halo_type_calculator_length (primary secondary : List ℚ) (f : ℚ → ℚ)
    (spacing eps : ℚ) :
    (halo_type_calculator primary secondary f spacing eps).length =
      primary.length := by
  unfold halo_type_calculator
  dsimp only
  rw [foldl_processBin_length, List.length_replicate]

theorem zeroedPositions_eq_take (secondary : List ℚ) (binIdx : List ℤ)
    (frac : List ℚ) (b : ℤ) (h0 : 0 ≤ frac.getD b.toNat 0) :
    zeroedPositions secondary binIdx frac b =
      ((argsort ((binMembersOf binIdx b).map (fun i => secondary.getD i 0))).take
        (pyRound (((binMembersOf binIdx b).length : ℚ) *
          frac.getD b.toNat 0)).toNat).map
        (fun r => (binMembersOf binIdx b).getD r 0) := by
  unfold zeroedPositions pySlice
  dsimp only
  rw [if_neg (not_lt.mpr (pyRound_nonneg _ (mul_nonneg (by positivity) h0)))]

/-- C5.  Classifier split rule: `halo_type_calculator` starts every halo
at type 1 and, within each occurring (hence non-empty) bin of the
primary property with `n` member halos and target type-1 fraction
evaluated at the bin midpoint, overwrites to type 0 exactly the
`round((1−f1)·n)` members of lowest secondary property in argsort rank
order; every other member (ties included) stays type 1.  Bins with a
single member follow the same rule with no special case; the hypotheses
only require a non-empty catalog and a well-formed binning (at least two
bin edges, positive epsilon, fraction values in `[0,1]`). -/
theorem halo_type_calculator_split_rule (primary secondary : List ℚ)
    (f : ℚ → ℚ) (spacing eps : ℚ)
    (hlen : secondary.length = primary.length)
    (hM : 0 < primary.length)
    (heps : 0 < eps)
    (hf : ∀ x, 0 ≤ f x ∧ f x ≤ 1)
    (hN : 2 ≤ numberOfBins primary spacing eps) :
    (halo_type_calculator primary secondary f spacing eps).length =
      primary.length ∧
    (∀ j, j < primary.length →
      (halo_type_calculator primary secondary f spacing eps).getD j 0 = 0 ∨
      (halo_type_calculator primary secondary f spacing eps).getD j 0 = 1) ∧
    ∀ b ∈ binIndices primary spacing eps,
      ((binMembersOf (binIndices primary spacing eps) b).filter
          (fun j => decide
            ((halo_type_calculator primary secondary f spacing eps).getD j 0 =
              0))).length =
        (pyRound
          (((binMembersOf (binIndices primary spacing eps) b).length : ℚ) *
            (1 - f ((binMidpoints primary spacing eps).getD b.toNat 0)))).toNat ∧
      ∀ j ∈ binMembersOf (binIndices primary spacing eps) b,
        ((halo_type_calculator primary secondary f spacing eps).getD j 0 = 0 ↔
          j ∈ ((argsort ((binMembersOf (binIndices primary spacing eps) b).map
                (fun i => secondary.getD i 0))).take
              (pyRound
                (((binMembersOf (binIndices primary spacing eps) b).length : ℚ) *
                  (1 - f ((binMidpoints primary spacing eps).getD
                    b.toNat 0)))).toNat).map
            (fun r => (binMembersOf (binIndices primary spacing eps) b).getD r 0)) := by
  set binIdx := binIndices primary spacing eps with hbinIdx
  set mids := binMidpoints primary spacing eps with hmids
  set frac := mids.map (fun q => 1 - f q) with hfrac
  have hbinIdx_len : binIdx.length = primary.length := by
    rw [hbinIdx]
    unfold binIndices
    simp
  refine ⟨halo_type_calculator_length primary secondary f spacing eps, ?_, ?_⟩
  · intro j hj
    rw [halo_type_calculator_getD primary secondary f spacing eps j hj]
    split_ifs <;> simp
  · intro b hb
    obtain ⟨hb0, hbN⟩ := binIndices_range primary spacing eps heps hN b hb
    have hmidlen : b.toNat < mids.length := by
      rw [hmids, binMidpoints_length]
      omega
    have hfr_eq : frac.getD b.toNat 0 = 1 - f (mids.getD b.toNat 0) := by
      rw [hfrac]
      exact frac_getD primary spacing eps f b.toNat hmidlen
    have hfr0 : 0 ≤ frac.getD b.toNat 0 := by
      rw [hfr_eq]
      linarith [(hf (mids.getD b.toNat 0)).2]
    have hfr1 : frac.getD b.toNat 0 ≤ 1 := by
      rw [hfr_eq]
      linarith [(hf (mids.getD b.toNat 0)).1]
    have hchar : ∀ j ∈ binMembersOf binIdx b,
        ((halo_type_calculator primary secondary f spacing eps).getD j 0 = 0 ↔
          j ∈ zeroedPositions secondary binIdx frac b) := by
      intro j hjm
      rw [mem_binMembersOf] at hjm
      have hjlt : j < primary.length := by
        rw [← hbinIdx_len]
        exact hjm.1
      rw [halo_type_calculator_getD primary secondary f spacing eps j hjlt,
        hjm.2]
      constructor
      · intro h0
        by_cases hmem : j ∈ zeroedPositions secondary binIdx frac b
        · exact hmem
        · rw [if_neg hmem] at h0
          norm_num at h0
      · intro hmem
        rw [if_pos hmem]
    constructor
    · have hcongr : (binMembersOf binIdx b).filter
          (fun j => decide
            ((halo_type_calculator primary secondary f spacing eps).getD j 0 = 0)) =
          (binMembersOf binIdx b).filter
            (fun j => decide (j ∈ zeroedPositions secondary binIdx frac b)) := by
        apply List.filter_congr
        intro j hjm
        rw [decide_eq_decide]
        exact hchar j hjm
      rw [hcongr,
        length_filter_mem_of_nodup _ _
          (zeroedPositions_subset secondary binIdx frac b)
          (binMembersOf_nodup binIdx b)
          (zeroedPositions_nodup secondary binIdx frac b),
        zeroedPositions_length secondary binIdx frac b hfr0 hfr1, hfr_eq]
    · intro j hjm
      rw [hchar j hjm, zeroedPositions_eq_take secondary binIdx frac b hfr0,
        hfr_eq]

/-- Witness for C5: the two-halo catalog `primary = [0, 1]`,
`secondary = [5, 3]`, constant type-1 fraction `1/2`, bin spacing `1/2`,
epsilon `1/2` (three bin edges). -/
theorem halo_type_calculator_split_rule_witness :
    (([(5:ℚ), 3].length = [(0:ℚ), 1].length) ∧ 0 < [(0:ℚ), 1].length ∧
      (0:ℚ) < 1/2 ∧ 2 ≤ numberOfBins [(0:ℚ), 1] (1/2) (1/2)) ∧
    ((halo_type_calculator [(0:ℚ), 1] [5, 3] (fun _ => 1/2) (1/2) (1/2)).length =
      [(0:ℚ), 1].length ∧
    (∀ j, j < [(0:ℚ), 1].length →
      (halo_type_calculator [(0:ℚ), 1] [5, 3] (fun _ => 1/2) (1/2) (1/2)).getD j 0 = 0 ∨
      (halo_type_calculator [(0:ℚ), 1] [5, 3] (fun _ => 1/2) (1/2) (1/2)).getD j 0 = 1) ∧
    ∀ b ∈ binIndices [(0:ℚ), 1] (1/2) (1/2),
      ((binMembersOf (binIndices [(0:ℚ), 1] (1/2) (1/2)) b).filter
          (fun j => decide
            ((halo_type_calculator [(0:ℚ), 1] [5, 3] (fun _ => 1/2) (1/2) (1/2)).getD j 0 =
              0))).length =
        (pyRound
          (((binMembersOf (binIndices [(0:ℚ), 1] (1/2) (1/2)) b).length : ℚ) *
            (1 - (fun (_ : ℚ) => (1:ℚ)/2)
              ((binMidpoints [(0:ℚ), 1] (1/2) (1/2)).getD b.toNat 0)))).toNat ∧
      ∀ j ∈ binMembersOf (binIndices [(0:ℚ), 1] (1/2) (1/2)) b,
        ((halo_type_calculator [(0:ℚ), 1] [5, 3] (fun _ => 1/2) (1/2) (1/2)).getD j 0 = 0 ↔
          j ∈ ((argsort ((binMembersOf (binIndices [(0:ℚ), 1] (1/2) (1/2)) b).map
                (fun i => [(5:ℚ), 3].getD i 0))).take
              (pyRound
                (((binMembersOf (binIndices [(0:ℚ), 1] (1/2) (1/2)) b).length : ℚ) *
                  (1 - (fun (_ : ℚ) => (1:ℚ)/2)
                    ((binMidpoints [(0:ℚ), 1] (1/2) (1/2)).getD
                      b.toNat 0)))).toNat).map
            (fun r => (binMembersOf (binIndices [(0:ℚ), 1] (1/2) (1/2)) b).getD r 0))) :=
  ⟨⟨rfl, by norm_num, by norm_num, by with_unfolding_all decide⟩,
    halo_type_calculator_split_rule [0, 1] [5, 3] (fun _ => 1/2) (1/2) (1/2)
      rfl (by norm_num) (by norm_num) (fun x => by norm_num)
      (by with_unfolding_all decide)⟩
